import Mathlib

/-
  Verification of the Angular documentation class extractor
  (packages/compiler-cli/src/ngtsc/docs/src/class_extractor.ts)
  and the skip-hydration helpers (hydration skip-attribute utilities).

  The TypeScript source is shallowly embedded: syntax-tree nodes become
  records over inductive kind tags, external collaborators (type resolver,
  JSDoc readers, function extractor, name filter, metadata reader) become
  function-valued parameters, and the imperative loops become structural
  recursion over lists.
-/

set_option maxHeartbeats 1000000

/-! ## Data model for the class extractor -/

/-- Syntactic kind of a class or interface member node.  Mirrors the
TypeScript kind checks used in the source: `ts.isMethodDeclaration`,
`ts.isMethodSignature`, `ts.isPropertyDeclaration`, `ts.isPropertySignature`,
`ts.isGetAccessor`, `ts.isSetAccessor`; `other` stands for every remaining
node kind (constructors, index signatures, ...). -/
inductive MemberKind where
  | methodDecl
  | methodSig
  | propertyDecl
  | propertySig
  | getAccessor
  | setAccessor
  | other
deriving DecidableEq, Repr

/-- Modifier keywords relevant to the extractor (`ts.SyntaxKind` values on
`member.modifiers`).  `otherK` stands for every remaining modifier kind. -/
inductive ModifierKind where
  | staticK
  | readonlyK
  | protectedK
  | abstractK
  | privateK
  | publicK
  | otherK
deriving DecidableEq, Repr

/-- A class or interface member node (`ts.ClassElement | ts.TypeElement`).
`name` is `some` of the source text of the name when the node has a name
(`member.name.getText()`), `none` when `member.name` is undefined.
`questionToken` records presence of the optional marker, `pos` the source
position used by the overload heuristic. -/
structure MemberElement where
  name : Option String
  kind : MemberKind
  modifiers : List ModifierKind
  questionToken : Bool
  pos : Nat
deriving DecidableEq, Repr

/-- Declaration kind: class declaration or interface declaration. -/
inductive DeclKind where
  | classDecl
  | interfaceDecl
deriving DecidableEq, Repr

/-- A class-like or interface-like declaration
(`ts.ClassDeclaration | ts.InterfaceDeclaration`). -/
structure ClassDecl where
  name : String
  kind : DeclKind
  modifiers : List ModifierKind
  members : List MemberElement
deriving DecidableEq, Repr

/-- Member entry type tags (`MemberType` in entities.ts). -/
inductive MemberType where
  | Method
  | Property
  | Getter
  | Setter
deriving DecidableEq, Repr

/-- Member qualifier tags (`MemberTags` in entities.ts). -/
inductive MemberTags where
  | Static
  | Readonly
  | Protected
  | Abstract
  | Optional
  | Input
  | Output
deriving DecidableEq, Repr

/-- Entry type of a documentation entry (`EntryType` in entities.ts),
restricted to the values this extractor produces. -/
inductive EntryType where
  | Interface
  | UndecoratedClass
  | Component
  | Directive
  | Pipe
  | NgModule
deriving DecidableEq, Repr

/-- A documentation entry for one member.  The TypeScript source uses a
union of `MethodEntry` and `PropertyEntry`; here both are flattened into one
record, with `tpe` (the rendered type string) and the directive enrichment
fields optional, as they are in the source. -/
structure MemberEntry where
  name : String
  memberType : MemberType
  memberTags : List MemberTags
  tpe : Option String
  description : String
  jsdocTags : List String
  inputAlias : Option String
  isRequiredInput : Option Bool
  outputAlias : Option String
deriving DecidableEq, Repr

/-- A documentation entry for a declaration (`ClassEntry` and its
directive/pipe flavored extensions, flattened with optional fields). -/
structure ClassEntry where
  name : String
  isAbstract : Bool
  entryType : EntryType
  members : List MemberEntry
  generics : List String
  description : String
  jsdocTags : List String
  rawComment : String
  isStandalone : Option Bool
  selector : Option String
  exportAs : Option (List String)
  pipeName : Option String
deriving DecidableEq, Repr

/-- Result of `FunctionExtractor.extract()` for a method-like node, reduced
to the fields the spread in `extractMethod` contributes to the entry. -/
structure FunctionBase where
  name : String
  description : String
  jsdocTags : List String
deriving DecidableEq, Repr

/-- The external collaborators of the extractor: the Angular-private name
filter, the resolved-type renderer, the JSDoc readers, the function
extractor and the generics extractor.  Their internals are outside the
extracted source, so they are parameters of the embedding. -/
structure Env where
  isAngularPrivateName : String → Bool
  resolveType : MemberElement → String
  jsdocDescription : MemberElement → String
  jsdocTagsOf : MemberElement → List String
  functionExtract : MemberElement → FunctionBase
  genericsOf : ClassDecl → List String
  declDescription : ClassDecl → String
  declJsdocTags : ClassDecl → List String
  declRawComment : ClassDecl → String

/-- Input binding metadata (`InputMapping`). -/
structure InputMapping where
  bindingPropertyName : String
  required : Bool
deriving DecidableEq, Repr

/-- Output binding metadata (`InputOrOutput`). -/
structure InputOrOutput where
  bindingPropertyName : String
deriving DecidableEq, Repr

/-- Directive metadata (`DirectiveMeta`), with the input/output lookup
tables modelled as functions from the class property name, mirroring
`inputs.getByClassPropertyName` and `outputs.getByClassPropertyName`. -/
structure DirectiveMeta where
  isStandalone : Bool
  isComponent : Bool
  selector : Option String
  exportAs : Option (List String)
  inputs : String → Option InputMapping
  outputs : String → Option InputOrOutput

/-- Pipe metadata (`PipeMeta`), reduced to the fields the extractor reads. -/
structure PipeMeta where
  name : String
  isStandalone : Bool
deriving DecidableEq, Repr

/-- NgModule metadata (`NgModuleMeta`); the extractor reads none of its
fields. -/
structure NgModuleMeta where
  deriving DecidableEq, Repr

/-- The metadata reader (`MetadataReader`), specialised to the single
declaration under extraction: each lookup either returns a record or
nothing. -/
structure MetadataReader where
  getDirectiveMetadata : Option DirectiveMeta
  getPipeMetadata : Option PipeMeta
  getNgModuleMetadata : Option NgModuleMeta

/-- Which concrete extractor subclass is running.  The source uses virtual
dispatch on `this` for the overridden `extractClassProperty`; the embedding
threads this tag instead. -/
inductive ExtractorKind where
  | generic
  | directiveEx (md : DirectiveMeta)
  | pipeEx (md : PipeMeta)
  | moduleEx (md : NgModuleMeta)

/-! ## Classification predicates -/

/-- `ClassExtractor.isMethod`: method declaration or method signature. -/
def isMethod (m : MemberElement) : Bool :=
  m.kind = MemberKind.methodDecl || m.kind = MemberKind.methodSig

/-- `ClassExtractor.isProperty`: property declaration or property
signature. -/
def isProperty (m : MemberElement) : Bool :=
  m.kind = MemberKind.propertyDecl || m.kind = MemberKind.propertySig

/-- `ts.isAccessor`: get accessor or set accessor. -/
def isAccessor (m : MemberElement) : Bool :=
  m.kind = MemberKind.getAccessor || m.kind = MemberKind.setAccessor

/-- `ClassExtractor.isDocumentableMember`: method, property, or accessor. -/
def isDocumentableMember (m : MemberElement) : Bool :=
  isMethod m || isProperty m || isAccessor m

/-- `ClassExtractor.isMemberExcluded`: no name, not documentable, carries a
private modifier, or the name is Angular-private. -/
def isMemberExcluded (env : Env) (m : MemberElement) : Bool :=
  m.name.isNone || !isDocumentableMember m ||
    m.modifiers.any (fun mod => mod = ModifierKind.privateK) ||
    env.isAngularPrivateName (m.name.getD "")

/-- The largest `pos` among a list of members.  The source sorts the group
by `pos` ascending and reads the `pos` of the last element, which is this
maximum (the group is always nonempty at the call site, since the probed
method itself belongs to it). -/
def lastPosOf (l : List MemberElement) : Nat :=
  l.foldl (fun acc m => Nat.max acc m.pos) 0

/-- `ClassExtractor.isImplementationForOverload`: method signatures are
never implementations; otherwise collect every member of the declaration
whose name text equals the probed method name, and the probed method is the
implementation iff the group has more than one member and the method sits
at the last source position of the group. -/
def isImplementationForOverload (d : ClassDecl) (method : MemberElement) : Bool :=
  if method.kind = MemberKind.methodSig then false
  else
    let methodsWithSameName :=
      d.members.filter (fun m => m.name = some (method.name.getD ""))
    if methodsWithSameName.length = 1 then false
    else method.pos = lastPosOf methodsWithSameName

/-! ## Member tag derivation -/

/-- `ClassExtractor.getTagForMemberModifier`: the fixed modifier-to-tag
table. -/
def getTagForMemberModifier (mod : ModifierKind) : Option MemberTags :=
  match mod with
  | ModifierKind.staticK => some MemberTags.Static
  | ModifierKind.readonlyK => some MemberTags.Readonly
  | ModifierKind.protectedK => some MemberTags.Protected
  | ModifierKind.abstractK => some MemberTags.Abstract
  | _ => none

/-- `ClassExtractor.getMemberTagsFromModifiers`: push the tag of each
modifier, in order, skipping modifiers with no tag. -/
def getMemberTagsFromModifiers : List ModifierKind → List MemberTags
  | [] => []
  | mod :: rest =>
    match getTagForMemberModifier mod with
    | some tag => tag :: getMemberTagsFromModifiers rest
    | none => getMemberTagsFromModifiers rest

/-- `ClassExtractor.getMemberTags`: the modifier tags, then `Optional` when
the member carries a question token. -/
def getMemberTags (m : MemberElement) : List MemberTags :=
  getMemberTagsFromModifiers m.modifiers ++
    (if m.questionToken then [MemberTags.Optional] else [])

/-! ## Per-member extraction -/

/-- `ClassExtractor.extractMethod`: spread of the function extractor result
with `memberType` Method and the computed member tags. -/
def extractMethod (env : Env) (m : MemberElement) : MemberEntry :=
  let base := env.functionExtract m
  { name := base.name
    memberType := MemberType.Method
    memberTags := getMemberTags m
    tpe := none
    description := base.description
    jsdocTags := base.jsdocTags
    inputAlias := none
    isRequiredInput := none
    outputAlias := none }

/-- `ClassExtractor.extractClassProperty`: name text, resolved type,
Property member type, modifier tags and JSDoc data. -/
def ClassExtractor.extractClassProperty (env : Env) (m : MemberElement) : MemberEntry :=
  { name := m.name.getD ""
    memberType := MemberType.Property
    memberTags := getMemberTags m
    tpe := some (env.resolveType m)
    description := env.jsdocDescription m
    jsdocTags := env.jsdocTagsOf m
    inputAlias := none
    isRequiredInput := none
    outputAlias := none }

/-- `DirectiveExtractor.extractClassProperty`: the base property entry,
then, when the input lookup hits, push the Input tag and record the binding
alias and required flag, and, when the output lookup hits, push the Output
tag and record the output alias. -/
def DirectiveExtractor.extractClassProperty (env : Env) (md : DirectiveMeta)
    (m : MemberElement) : MemberEntry :=
  let entry := ClassExtractor.extractClassProperty env m
  let entry :=
    match md.inputs (m.name.getD "") with
    | some im =>
      { entry with
        memberTags := entry.memberTags ++ [MemberTags.Input]
        inputAlias := some im.bindingPropertyName
        isRequiredInput := some im.required }
    | none => entry
  match md.outputs (m.name.getD "") with
  | some om =>
    { entry with
      memberTags := entry.memberTags ++ [MemberTags.Output]
      outputAlias := some om.bindingPropertyName }
  | none => entry

/-- Virtual dispatch of `this.extractClassProperty`: the directive subclass
overrides it, every other extractor uses the base implementation. -/
def dispatchExtractClassProperty (env : Env) (k : ExtractorKind)
    (m : MemberElement) : MemberEntry :=
  match k with
  | ExtractorKind.directiveEx md => DirectiveExtractor.extractClassProperty env md m
  | _ => ClassExtractor.extractClassProperty env m

/-- `ClassExtractor.extractGetterSetter`: the property entry of the
accessor (through the possibly overridden `extractClassProperty`), with
`memberType` replaced by Getter for a get accessor and Setter otherwise. -/
def extractGetterSetter (env : Env) (k : ExtractorKind) (m : MemberElement) : MemberEntry :=
  { dispatchExtractClassProperty env k m with
    memberType :=
      if m.kind = MemberKind.getAccessor then MemberType.Getter else MemberType.Setter }

/-- `ClassExtractor.extractClassMember`: a method that is not the overload
implementation yields a method entry; a property yields a property entry;
an accessor yields a getter/setter entry; anything else yields nothing. -/
def extractClassMember (env : Env) (k : ExtractorKind) (d : ClassDecl)
    (m : MemberElement) : Option MemberEntry :=
  if isMethod m && !isImplementationForOverload d m then
    some (extractMethod env m)
  else if isProperty m then
    some (dispatchExtractClassProperty env k m)
  else if isAccessor m then
    some (extractGetterSetter env k m)
  else
    none

/-- The loop body of `ClassExtractor.extractAllClassMembers`: skip excluded
members, push each produced entry in order. -/
def extractMembersLoop (env : Env) (k : ExtractorKind) (d : ClassDecl) :
    List MemberElement → List MemberEntry
  | [] => []
  | m :: rest =>
    if isMemberExcluded env m then extractMembersLoop env k d rest
    else
      match extractClassMember env k d m with
      | some e => e :: extractMembersLoop env k d rest
      | none => extractMembersLoop env k d rest

/-- `ClassExtractor.extractAllClassMembers` over the declaration members. -/
def extractAllClassMembers (env : Env) (k : ExtractorKind) (d : ClassDecl) :
    List MemberEntry :=
  extractMembersLoop env k d d.members

/-- `ClassExtractor.isAbstract`: the declaration modifiers contain the
abstract keyword. -/
def declIsAbstract (d : ClassDecl) : Bool :=
  d.modifiers.any (fun mod => mod = ModifierKind.abstractK)

/-- `ClassExtractor.extract`: the base class/interface entry. -/
def ClassExtractor.extract (env : Env) (k : ExtractorKind) (d : ClassDecl) : ClassEntry :=
  { name := d.name
    isAbstract := declIsAbstract d
    entryType :=
      if d.kind = DeclKind.interfaceDecl then EntryType.Interface
      else EntryType.UndecoratedClass
    members := extractAllClassMembers env k d
    generics := env.genericsOf d
    description := env.declDescription d
    jsdocTags := env.declJsdocTags d
    rawComment := env.declRawComment d
    isStandalone := none
    selector := none
    exportAs := none
    pipeName := none }

/-- `DirectiveExtractor.extract`: the base entry plus standalone flag,
selector, exportAs, and the Component or Directive entry type. -/
def DirectiveExtractor.extract (env : Env) (md : DirectiveMeta) (d : ClassDecl) : ClassEntry :=
  { ClassExtractor.extract env (ExtractorKind.directiveEx md) d with
    isStandalone := some md.isStandalone
    selector := some (md.selector.getD "")
    exportAs := some (md.exportAs.getD [])
    entryType := if md.isComponent then EntryType.Component else EntryType.Directive }

/-- `PipeExtractor.extract`: the base entry plus pipe name, Pipe entry type
and standalone flag. -/
def PipeExtractor.extract (env : Env) (md : PipeMeta) (d : ClassDecl) : ClassEntry :=
  { ClassExtractor.extract env (ExtractorKind.pipeEx md) d with
    pipeName := some md.name
    entryType := EntryType.Pipe
    isStandalone := some md.isStandalone }

/-- `NgModuleExtractor.extract`: the base entry with the NgModule entry
type. -/
def NgModuleExtractor.extract (env : Env) (md : NgModuleMeta) (d : ClassDecl) : ClassEntry :=
  { ClassExtractor.extract env (ExtractorKind.moduleEx md) d with
    entryType := EntryType.NgModule }

/-- `extractClass`: probe directive metadata, then pipe metadata, then
module metadata, and run the first matching extractor, defaulting to the
generic one. -/
def extractClass (env : Env) (reader : MetadataReader) (d : ClassDecl) : ClassEntry :=
  match reader.getDirectiveMetadata with
  | some md => DirectiveExtractor.extract env md d
  | none =>
    match reader.getPipeMetadata with
    | some md => PipeExtractor.extract env md d
    | none =>
      match reader.getNgModuleMetadata with
      | some md => NgModuleExtractor.extract env md d
      | none => ClassExtractor.extract env ExtractorKind.generic d

/-- `extractInterface`: interfaces always use the generic extractor. -/
def extractInterface (env : Env) (d : ClassDecl) : ClassEntry :=
  ClassExtractor.extract env ExtractorKind.generic d

/-! ## Data model for the skip-hydration helpers -/

/-- One slot of the `mergedAttrs` array (`TAttributes`).  A slot is a
string, a numeric attribute marker, or some other value (such as the nested
arrays carried by certain markers); the source only distinguishes these
three cases via `typeof`. -/
inductive AttrValue where
  | str (s : String)
  | num (n : Int)
  | otherVal
deriving DecidableEq, Repr

/-- A `TNode`, reduced to the two fields the helpers read: the merged
attribute array (or null) and the parent node (or null). -/
inductive TNode where
  | mk (mergedAttrs : Option (List AttrValue)) (parent : Option TNode)

/-- The `mergedAttrs` field of a `TNode`. -/
def TNode.mergedAttrs : TNode → Option (List AttrValue)
  | TNode.mk attrs _ => attrs

/-- The `parent` field of a `TNode`. -/
def TNode.parent : TNode → Option TNode
  | TNode.mk _ p => p

/-- Lowercase name of the skip-hydration attribute
(`SKIP_HYDRATION_ATTR_NAME_LOWER_CASE`). -/
def SKIP_HYDRATION_ATTR_NAME_LOWER_CASE : String := "ngskiphydration"

/-- JavaScript `String.prototype.toLowerCase`, modelled as the character
wise lowercase map over the string data. -/
def jsToLowerCase (s : String) : String := String.mk (s.data.map Char.toLower)

/-- The scanning loop of `hasSkipHydrationAttrOnTNode`: visit the slots at
even indices (index steps by two, so after the head the next visited slot
is the second element of the tail); a numeric marker ends the scan with
false, a string matching the skip-hydration name case-insensitively ends it
with true. -/
def scanAttrs : List AttrValue → Bool
  | [] => false
  | v :: rest =>
    match v with
    | AttrValue.num _ => false
    | AttrValue.str s =>
      if jsToLowerCase s = SKIP_HYDRATION_ATTR_NAME_LOWER_CASE then true
      else
        match rest with
        | [] => false
        | _ :: rest2 => scanAttrs rest2
    | AttrValue.otherVal =>
      match rest with
      | [] => false
      | _ :: rest2 => scanAttrs rest2

/-- `hasSkipHydrationAttrOnTNode`: false when `mergedAttrs` is null,
otherwise the even-index scan. -/
def hasSkipHydrationAttrOnTNode (t : TNode) : Bool :=
  match t.mergedAttrs with
  | none => false
  | some attrs => scanAttrs attrs

/-- The upward walk of `isInSkipHydrationBlock`, starting from an optional
node: true when some node of the parent chain (the argument included)
carries the skip-hydration attribute. -/
def ancestorScan : Option TNode → Bool
  | none => false
  | some (TNode.mk attrs p) =>
    hasSkipHydrationAttrOnTNode (TNode.mk attrs p) || ancestorScan p

/-- `isInSkipHydrationBlock`: the walk starts at `tNode.parent`, so only
strict ancestors are inspected. -/
def isInSkipHydrationBlock (t : TNode) : Bool :=
  ancestorScan t.parent

/-- The strict ancestors of a node, nearest first: the parent, then the
ancestors of the parent. -/
def strictAncestors : TNode → List TNode
  | TNode.mk _ none => []
  | TNode.mk _ (some p) => p :: strictAncestors p

/-! ## Concrete instances used by witnesses and counterexamples -/

/-- A concrete collaborator environment: the Angular-private filter hides
exactly the name "ngInternal", the type resolver renders "string", the
function extractor reports the member name, and the JSDoc readers return
empty data. -/
def env0 : Env :=
  { isAngularPrivateName := fun s => s = "ngInternal"
    resolveType := fun _ => "string"
    jsdocDescription := fun _ => ""
    jsdocTagsOf := fun _ => []
    functionExtract := fun m => { name := m.name.getD "", description := "", jsdocTags := [] }
    genericsOf := fun _ => []
    declDescription := fun _ => ""
    declJsdocTags := fun _ => []
    declRawComment := fun _ => "" }

/-- An overload signature: first method declaration named "f". -/
def sigA : MemberElement :=
  { name := some "f", kind := MemberKind.methodDecl, modifiers := [],
    questionToken := false, pos := 0 }

/-- The overload implementation: last method declaration named "f". -/
def implA : MemberElement :=
  { name := some "f", kind := MemberKind.methodDecl, modifiers := [],
    questionToken := false, pos := 1 }

/-- A class declaration with one overload group: signature then
implementation. -/
def dOverload : ClassDecl :=
  { name := "C", kind := DeclKind.classDecl, modifiers := [],
    members := [sigA, implA] }

/-- First interface method signature named "h". -/
def sigI1 : MemberElement :=
  { name := some "h", kind := MemberKind.methodSig, modifiers := [],
    questionToken := false, pos := 0 }

/-- Second interface method signature named "h". -/
def sigI2 : MemberElement :=
  { name := some "h", kind := MemberKind.methodSig, modifiers := [],
    questionToken := false, pos := 1 }

/-- An interface declaration with two same-named method signatures. -/
def dIface : ClassDecl :=
  { name := "I", kind := DeclKind.interfaceDecl, modifiers := [],
    members := [sigI1, sigI2] }

/-- A lone, non-overloaded method named "g". -/
def loneM : MemberElement :=
  { name := some "g", kind := MemberKind.methodDecl, modifiers := [],
    questionToken := false, pos := 0 }

/-- A class declaration with a single method. -/
def dLone : ClassDecl :=
  { name := "C", kind := DeclKind.classDecl, modifiers := [], members := [loneM] }

/-- A public method member used as surrounding context. -/
def pub0 : MemberElement :=
  { name := some "go", kind := MemberKind.methodDecl, modifiers := [],
    questionToken := false, pos := 0 }

/-- A private property member. -/
def priv0 : MemberElement :=
  { name := some "hidden", kind := MemberKind.propertyDecl,
    modifiers := [ModifierKind.privateK], questionToken := false, pos := 10 }

/-- A class declaration with a public method and a private property. -/
def d0 : ClassDecl :=
  { name := "C", kind := DeclKind.classDecl, modifiers := [],
    members := [pub0, priv0] }

/-- A getter named "v". -/
def gM : MemberElement :=
  { name := some "v", kind := MemberKind.getAccessor, modifiers := [],
    questionToken := false, pos := 0 }

/-- A setter named "v". -/
def sM : MemberElement :=
  { name := some "v", kind := MemberKind.setAccessor, modifiers := [],
    questionToken := false, pos := 1 }

/-- A class declaration with a getter/setter pair sharing the name "v". -/
def dAcc : ClassDecl :=
  { name := "C", kind := DeclKind.classDecl, modifiers := [], members := [gM, sM] }

/-- A member with static and readonly modifiers and an optional marker. -/
def mTagEx : MemberElement :=
  { name := some "p", kind := MemberKind.propertyDecl,
    modifiers := [ModifierKind.staticK, ModifierKind.publicK, ModifierKind.readonlyK],
    questionToken := true, pos := 0 }

/-- A node that itself carries the skip-hydration attribute but has no
parent. -/
def tSelf : TNode :=
  TNode.mk (some [AttrValue.str "ngSkipHydration", AttrValue.otherVal]) none

/-! ## Helper lemmas -/

/-- The modifier loop is the order-preserving partial map of the modifier
table. -/
theorem getMemberTagsFromModifiers_eq_filterMap (mods : List ModifierKind) :
    getMemberTagsFromModifiers mods = mods.filterMap getTagForMemberModifier := by
  induction mods with
  | nil => rfl
  | cons mod rest ih =>
    cases h : getTagForMemberModifier mod <;>
      simp [getMemberTagsFromModifiers, List.filterMap_cons, h, ih]

/-- The modifier table only produces Static, Readonly, Protected or
Abstract. -/
theorem getTagForMemberModifier_mem (mod : ModifierKind) (t : MemberTags)
    (h : getTagForMemberModifier mod = some t) :
    t = MemberTags.Static ∨ t = MemberTags.Readonly ∨ t = MemberTags.Protected ∨
      t = MemberTags.Abstract := by
  cases mod <;> simp_all [getTagForMemberModifier]

/-- The modifier table is injective where defined. -/
theorem getTagForMemberModifier_inj (a b : ModifierKind) (t : MemberTags)
    (ha : t ∈ getTagForMemberModifier a) (hb : t ∈ getTagForMemberModifier b) :
    a = b := by
  cases a <;> cases b <;> simp_all [getTagForMemberModifier] <;>
    (rw [← ha] at hb; exact absurd hb (by decide))

/-- Membership in the derived tags: every tag comes from the table or is
the Optional tag. -/
theorem mem_getMemberTags (m : MemberElement) (t : MemberTags)
    (h : t ∈ getMemberTags m) :
    (∃ mod ∈ m.modifiers, getTagForMemberModifier mod = some t) ∨
      t = MemberTags.Optional := by
  unfold getMemberTags at h
  rw [getMemberTagsFromModifiers_eq_filterMap] at h
  rcases List.mem_append.mp h with h1 | h2
  · exact Or.inl (List.mem_filterMap.mp h1)
  · right
    by_cases hq : m.questionToken = true <;> simp [hq] at h2
    exact h2

/-- The Input tag is never produced by the base tag derivation. -/
theorem input_not_mem_getMemberTags (m : MemberElement) :
    MemberTags.Input ∉ getMemberTags m := by
  intro h
  rcases mem_getMemberTags m _ h with ⟨mod, _, hmod⟩ | h2
  · rcases getTagForMemberModifier_mem mod _ hmod with h | h | h | h <;> exact absurd h (by simp)
  · exact absurd h2 (by simp)

/-- The Output tag is never produced by the base tag derivation. -/
theorem output_not_mem_getMemberTags (m : MemberElement) :
    MemberTags.Output ∉ getMemberTags m := by
  intro h
  rcases mem_getMemberTags m _ h with ⟨mod, _, hmod⟩ | h2
  · rcases getTagForMemberModifier_mem mod _ hmod with h | h | h | h <;> exact absurd h (by simp)
  · exact absurd h2 (by simp)

/-- The member loop is the filter-map of exclusion followed by per-member
extraction. -/
theorem extractMembersLoop_eq_filterMap (env : Env) (k : ExtractorKind) (d : ClassDecl)
    (l : List MemberElement) :
    extractMembersLoop env k d l =
      l.filterMap
        (fun m => if isMemberExcluded env m then none else extractClassMember env k d m) := by
  induction l with
  | nil => rfl
  | cons m rest ih =>
    by_cases h : isMemberExcluded env m = true
    · simp [extractMembersLoop, List.filterMap_cons, h, ih]
    · simp only [Bool.not_eq_true] at h
      cases he : extractClassMember env k d m <;>
        simp [extractMembersLoop, List.filterMap_cons, h, he, ih]

/-- The member loop distributes over list concatenation. -/
theorem extractMembersLoop_append (env : Env) (k : ExtractorKind) (d : ClassDecl)
    (xs ys : List MemberElement) :
    extractMembersLoop env k d (xs ++ ys) =
      extractMembersLoop env k d xs ++ extractMembersLoop env k d ys := by
  simp [extractMembersLoop_eq_filterMap, List.filterMap_append]

/-- An excluded member contributes nothing to the member loop. -/
theorem extractMembersLoop_cons_excluded (env : Env) (k : ExtractorKind) (d : ClassDecl)
    (m : MemberElement) (rest : List MemberElement)
    (h : isMemberExcluded env m = true) :
    extractMembersLoop env k d (m :: rest) = extractMembersLoop env k d rest := by
  simp [extractMembersLoop, h]

/-- Index shift for the two-step scan: position 2(k+1) of a cons cell is
position 2k of the tail of its tail. -/
theorem getElem?_two_step (v : AttrValue) (l : List AttrValue) (k : Nat) :
    (v :: l)[2 * (k + 1)]? = l.tail[2 * k]? := by
  cases l with
  | nil =>
    have h1 : (2 : Nat) * (k + 1) = 2 * k + 1 + 1 := by omega
    rw [h1]
    simp
  | cons w l2 =>
    have h1 : (2 : Nat) * (k + 1) = 2 * k + 1 + 1 := by omega
    rw [h1]
    simp [List.getElem?_cons_succ]

/-- Characterisation of the attribute scan: it succeeds exactly when some
even slot holds a string whose lowercase form is the skip-hydration name
and no earlier even slot holds a numeric marker. -/
theorem scanAttrs_iff : (l : List AttrValue) →
    (scanAttrs l = true ↔
      ∃ z s, l[2 * z]? = some (AttrValue.str s) ∧
        jsToLowerCase s = SKIP_HYDRATION_ATTR_NAME_LOWER_CASE ∧
        ∀ j, j < z → ∀ n, l[2 * j]? ≠ some (AttrValue.num n))
  | [] => by
    constructor
    · intro h; simp [scanAttrs] at h
    · rintro ⟨z, s, h1, _, _⟩; simp at h1
  | AttrValue.num n0 :: rest => by
    constructor
    · intro h; simp [scanAttrs] at h
    · rintro ⟨z, s, h1, _, h3⟩
      cases z with
      | zero => simp at h1
      | succ z2 =>
        have := h3 0 (Nat.succ_pos z2) n0
        simp at this
  | AttrValue.str s0 :: [] => by
    by_cases hmatch : jsToLowerCase s0 = SKIP_HYDRATION_ATTR_NAME_LOWER_CASE
    · constructor
      · intro _
        refine ⟨0, s0, by simp, hmatch, ?_⟩
        intro j hj; omega
      · intro _; simp [scanAttrs, hmatch]
    · constructor
      · intro h; simp [scanAttrs, hmatch] at h
      · rintro ⟨z, s, h1, h2, _⟩
        cases z with
        | zero =>
          simp at h1
          subst h1
          exact absurd h2 hmatch
        | succ z2 =>
          rw [getElem?_two_step] at h1
          simp at h1
  | AttrValue.str s0 :: w :: rest2 => by
    by_cases hmatch : jsToLowerCase s0 = SKIP_HYDRATION_ATTR_NAME_LOWER_CASE
    · constructor
      · intro _
        refine ⟨0, s0, by simp, hmatch, ?_⟩
        intro j hj; omega
      · intro _; simp [scanAttrs, hmatch]
    · have ih := scanAttrs_iff rest2
      constructor
      · intro h
        have h0 : scanAttrs rest2 = true := by
          simpa [scanAttrs, hmatch] using h
        rcases ih.mp h0 with ⟨z, s, h1, h2, h3⟩
        refine ⟨z + 1, s, ?_, h2, ?_⟩
        · rw [getElem?_two_step]
          simpa using h1
        · intro j hj n
          cases j with
          | zero => simp
          | succ j2 =>
            rw [getElem?_two_step]
            simp only [List.tail_cons]
            exact h3 j2 (by omega) n
      · rintro ⟨z, s, h1, h2, h3⟩
        cases z with
        | zero =>
          simp at h1
          subst h1
          exact absurd h2 hmatch
        | succ z2 =>
          rw [getElem?_two_step] at h1
          simp only [List.tail_cons] at h1
          have h0 : scanAttrs rest2 = true := by
            refine ih.mpr ⟨z2, s, h1, h2, ?_⟩
            intro j hj n
            have := h3 (j + 1) (by omega) n
            rw [getElem?_two_step] at this
            simpa using this
          simpa [scanAttrs, hmatch] using h0
  | AttrValue.otherVal :: [] => by
    constructor
    · intro h; simp [scanAttrs] at h
    · rintro ⟨z, s, h1, _, _⟩
      cases z with
      | zero => simp at h1
      | succ z2 =>
        rw [getElem?_two_step] at h1
        simp at h1
  | AttrValue.otherVal :: w :: rest2 => by
    have ih := scanAttrs_iff rest2
    constructor
    · intro h
      have h0 : scanAttrs rest2 = true := by
        simpa [scanAttrs] using h
      rcases ih.mp h0 with ⟨z, s, h1, h2, h3⟩
      refine ⟨z + 1, s, ?_, h2, ?_⟩
      · rw [getElem?_two_step]
        simpa using h1
      · intro j hj n
        cases j with
        | zero => simp
        | succ j2 =>
          rw [getElem?_two_step]
          simp only [List.tail_cons]
          exact h3 j2 (by omega) n
    · rintro ⟨z, s, h1, h2, h3⟩
      cases z with
      | zero => simp at h1
      | succ z2 =>
        rw [getElem?_two_step] at h1
        simp only [List.tail_cons] at h1
        have h0 : scanAttrs rest2 = true := by
          refine ih.mpr ⟨z2, s, h1, h2, ?_⟩
          intro j hj n
          have := h3 (j + 1) (by omega) n
          rw [getElem?_two_step] at this
          simpa using this
        simpa [scanAttrs] using h0

/-- The strict ancestors of a node are its parent followed by the strict
ancestors of the parent; for a parentless node the list is empty. -/
theorem strictAncestors_mk (attrs : Option (List AttrValue)) (p : Option TNode) :
    strictAncestors (TNode.mk attrs p) =
      match p with
      | none => []
      | some q => q :: strictAncestors q := by
  cases p <;> rfl

/-- The upward walk from a node finds the attribute exactly when the node
or one of its strict ancestors carries it. -/
theorem ancestorScan_some_iff : (t : TNode) →
    (ancestorScan (some t) = true ↔
      ∃ a, (a = t ∨ a ∈ strictAncestors t) ∧ hasSkipHydrationAttrOnTNode a = true)
  | TNode.mk attrs none => by
    constructor
    · intro h
      simp only [ancestorScan, Bool.or_eq_true] at h
      rcases h with h | h
      · exact ⟨TNode.mk attrs none, Or.inl rfl, h⟩
      · cases h
    · rintro ⟨a, ha, hattr⟩
      rcases ha with rfl | ha
      · simp only [ancestorScan, Bool.or_eq_true]
        exact Or.inl hattr
      · rw [strictAncestors_mk] at ha
        cases ha
  | TNode.mk attrs (some p) => by
    have ih := ancestorScan_some_iff p
    constructor
    · intro h
      simp only [ancestorScan, Bool.or_eq_true] at h
      rcases h with h | h
      · exact ⟨TNode.mk attrs (some p), Or.inl rfl, h⟩
      · rcases ih.mp h with ⟨a, ha, hattr⟩
        refine ⟨a, Or.inr ?_, hattr⟩
        rw [strictAncestors_mk]
        rcases ha with rfl | ha
        · exact List.mem_cons_self _ _
        · exact List.mem_cons_of_mem _ ha
    · rintro ⟨a, ha, hattr⟩
      simp only [ancestorScan, Bool.or_eq_true]
      rcases ha with rfl | ha
      · exact Or.inl hattr
      · rw [strictAncestors_mk] at ha
        rcases List.mem_cons.mp ha with rfl | ha
        · exact Or.inr (ih.mpr ⟨a, Or.inl rfl, hattr⟩)
        · exact Or.inr (ih.mpr ⟨a, Or.inr ha, hattr⟩)

/-! ## Claim theorems -/

/-- Claim C1, counterexample: in a class with an overload group of two
methods named "f", the earlier overload signature produces an entry and the
member at the last source position (the implementation) produces none; in
an interface, both same-named method signatures produce entries.  This
contradicts the claim, which asserts that exactly the last-position member
is emitted and that interface signatures are all skipped. -/
theorem c1_counterexample :
    (extractClassMember env0 ExtractorKind.generic dOverload sigA).isSome = true ∧
    extractClassMember env0 ExtractorKind.generic dOverload implA = none ∧
    (extractClassMember env0 ExtractorKind.generic dIface sigI1).isSome = true ∧
    (extractClassMember env0 ExtractorKind.generic dIface sigI2).isSome = true := by
  decide

/-- Claim C1 (amended): within a same-named group of at least two members,
a class method declaration yields an entry exactly when it does not sit at
the last source position of the group (each earlier overload signature is
emitted, the implementation is skipped), while an interface method
signature always yields an entry. -/
theorem c1_overload_amended (env : Env) (k : ExtractorKind) (d : ClassDecl)
    (m : MemberElement) (n : String)
    (hname : m.name = some n)
    (hgroup : 2 ≤ (d.members.filter (fun x => x.name = some n)).length) :
    (m.kind = MemberKind.methodDecl →
      ((extractClassMember env k d m).isSome = true ↔
        m.pos ≠ lastPosOf (d.members.filter (fun x => x.name = some n)))) ∧
    (m.kind = MemberKind.methodSig →
      (extractClassMember env k d m).isSome = true) := by
  have hlen : (d.members.filter (fun x => x.name = some n)).length ≠ 1 := by omega
  constructor
  · intro hk
    by_cases hpos : m.pos = lastPosOf (d.members.filter (fun x => x.name = some n))
    · simp [extractClassMember, isImplementationForOverload, isMethod, isProperty,
        isAccessor, hk, hname, hlen, hpos]
    · simp [extractClassMember, isImplementationForOverload, isMethod, isProperty,
        isAccessor, hk, hname, hlen, hpos]
  · intro hk
    simp [extractClassMember, isImplementationForOverload, isMethod, hk]

/-- Claim C1, witness: the earlier overload signature of the concrete
two-method class is emitted. -/
theorem c1_witness :
    (extractClassMember env0 ExtractorKind.generic dOverload sigA).isSome = true :=
  ((c1_overload_amended env0 ExtractorKind.generic dOverload sigA "f" rfl
    (by decide)).1 rfl).mpr (by decide)

/-- Claim C2, counterexample: for a lone, non-overloaded method the
overload resolver returns false (the source returns false whenever the
same-named group has exactly one member), contradicting the claim that it
classifies the lone method as the implementation. -/
theorem c2_counterexample : isImplementationForOverload dLone loneM = false := by
  decide

/-- Claim C2 (amended): a lone, non-overloaded class method is classified
as not being an overload implementation (the resolver returns false), and
extraction emits a Method entry for it. -/
theorem c2_lone_method_amended (env : Env) (k : ExtractorKind) (d : ClassDecl)
    (m : MemberElement) (n : String)
    (hkind : m.kind = MemberKind.methodDecl)
    (hname : m.name = some n)
    (hlone : (d.members.filter (fun x => x.name = some n)).length = 1) :
    isImplementationForOverload d m = false ∧
    ∃ e, extractClassMember env k d m = some e ∧ e.memberType = MemberType.Method := by
  have himpl : isImplementationForOverload d m = false := by
    simp [isImplementationForOverload, hkind, hname, hlone]
  exact ⟨himpl,
    ⟨extractMethod env m, by simp [extractClassMember, isMethod, hkind, himpl], rfl⟩⟩

/-- Claim C2, witness: the concrete lone method is not classified as an
overload implementation and yields a Method entry. -/
theorem c2_witness :
    isImplementationForOverload dLone loneM = false ∧
    ∃ e, extractClassMember env0 ExtractorKind.generic dLone loneM = some e ∧
      e.memberType = MemberType.Method :=
  c2_lone_method_amended env0 ExtractorKind.generic dLone loneM "g" rfl rfl (by decide)

/-- Claim C3: a member with no name, or that is not method-like,
property-like or accessor-like, or that carries a private modifier, or
whose name satisfies the framework-private predicate, contributes no entry
to the extracted members list, wherever it occurs and regardless of its
other attributes. -/
theorem c3_excluded_members_never_emitted (env : Env) (k : ExtractorKind) (d : ClassDecl)
    (m : MemberElement)
    (h : m.name = none ∨ isDocumentableMember m = false ∨
      ModifierKind.privateK ∈ m.modifiers ∨
      env.isAngularPrivateName (m.name.getD "") = true) :
    ∀ pre post : List MemberElement,
      extractMembersLoop env k d (pre ++ m :: post) =
        extractMembersLoop env k d (pre ++ post) := by
  have hexcl : isMemberExcluded env m = true := by
    rcases h with h | h | h | h
    · simp [isMemberExcluded, h]
    · simp [isMemberExcluded, h]
    · simp only [isMemberExcluded, Bool.or_eq_true, List.any_eq_true]
      exact Or.inl (Or.inr ⟨ModifierKind.privateK, h, by simp⟩)
    · simp [isMemberExcluded, h]
  intro pre post
  rw [extractMembersLoop_append, extractMembersLoop_append,
    extractMembersLoop_cons_excluded env k d m post hexcl]

/-- Claim C3, witness: the concrete private property contributes nothing
next to a public method. -/
theorem c3_witness :
    extractMembersLoop env0 ExtractorKind.generic d0 [pub0, priv0] =
      extractMembersLoop env0 ExtractorKind.generic d0 [pub0] :=
  c3_excluded_members_never_emitted env0 ExtractorKind.generic d0 priv0
    (Or.inr (Or.inr (Or.inl (by decide)))) [pub0] []

/-- Claim C4: the extracted members list is the order-preserving filter-map
of the source member list (exclusion check, then per-member extraction), so
it never reorders, merges or duplicates members, and is never longer than
the source list. -/
theorem c4_order_preserving (env : Env) (k : ExtractorKind) (d : ClassDecl) :
    extractAllClassMembers env k d =
      d.members.filterMap
        (fun m => if isMemberExcluded env m then none
                  else extractClassMember env k d m) ∧
    (extractAllClassMembers env k d).length ≤ d.members.length := by
  refine ⟨extractMembersLoop_eq_filterMap env k d d.members, ?_⟩
  rw [extractAllClassMembers, extractMembersLoop_eq_filterMap]
  exact List.length_filterMap_le _ _

/-- Claim C5: the dispatcher probes directive metadata, then pipe metadata,
then module metadata, running the first matching extractor; a declaration
with both directive and pipe metadata yields the Directive-flavored entry
(Component or Directive entry type), and a declaration matching no lookup
yields the generic class entry. -/
theorem c5_dispatcher_precedence (env : Env) (d : ClassDecl) (dm : DirectiveMeta)
    (pm : PipeMeta) (nm : NgModuleMeta) (opm : Option PipeMeta)
    (onm : Option NgModuleMeta) :
    extractClass env ⟨some dm, opm, onm⟩ d = DirectiveExtractor.extract env dm d ∧
    (extractClass env ⟨some dm, some pm, onm⟩ d).entryType =
      (if dm.isComponent then EntryType.Component else EntryType.Directive) ∧
    extractClass env ⟨none, some pm, onm⟩ d = PipeExtractor.extract env pm d ∧
    extractClass env ⟨none, none, some nm⟩ d = NgModuleExtractor.extract env nm d ∧
    extractClass env ⟨none, none, none⟩ d =
      ClassExtractor.extract env ExtractorKind.generic d := by
  refine ⟨rfl, ?_, rfl, rfl, rfl⟩
  simp [extractClass, DirectiveExtractor.extract]

/-- Claim C6: for a directive-extracted property, the member tags are the
base tags followed by Input exactly when the input lookup hits and then
Output exactly when the output lookup hits; the alias and required fields
mirror the lookup results, and the base tag derivation never contributes an
Input or Output tag, so a property with no binding carries neither tag and
no alias fields, and one with both bindings carries both tags. -/
theorem c6_directive_input_output (env : Env) (md : DirectiveMeta) (m : MemberElement) :
    (DirectiveExtractor.extractClassProperty env md m).memberTags =
      getMemberTags m ++
        (match md.inputs (m.name.getD "") with
         | some _ => [MemberTags.Input]
         | none => []) ++
        (match md.outputs (m.name.getD "") with
         | some _ => [MemberTags.Output]
         | none => []) ∧
    (DirectiveExtractor.extractClassProperty env md m).inputAlias =
      (md.inputs (m.name.getD "")).map (fun im => im.bindingPropertyName) ∧
    (DirectiveExtractor.extractClassProperty env md m).isRequiredInput =
      (md.inputs (m.name.getD "")).map (fun im => im.required) ∧
    (DirectiveExtractor.extractClassProperty env md m).outputAlias =
      (md.outputs (m.name.getD "")).map (fun om => om.bindingPropertyName) ∧
    MemberTags.Input ∉ getMemberTags m ∧
    MemberTags.Output ∉ getMemberTags m := by
  refine ⟨?_, ?_, ?_, ?_, input_not_mem_getMemberTags m, output_not_mem_getMemberTags m⟩ <;>
    cases hin : md.inputs (m.name.getD "") <;>
      cases hout : md.outputs (m.name.getD "") <;>
        simp [DirectiveExtractor.extractClassProperty, ClassExtractor.extractClassProperty,
          hin, hout]

/-- Claim C7: the member tags are the image of the modifier keywords under
the fixed table static to Static, readonly to Readonly, protected to
Protected, abstract to Abstract, in modifier order, followed by Optional
exactly when the member carries the optional marker; when the modifier
keywords are distinct (as TypeScript grammar requires), no tag appears
twice. -/
theorem c7_member_tags (m : MemberElement) :
    getMemberTags m =
      m.modifiers.filterMap getTagForMemberModifier ++
        (if m.questionToken then [MemberTags.Optional] else []) ∧
    (m.modifiers.Nodup → (getMemberTags m).Nodup) := by
  constructor
  · rw [getMemberTags, getMemberTagsFromModifiers_eq_filterMap]
  · intro hnodup
    rw [getMemberTags, getMemberTagsFromModifiers_eq_filterMap]
    have hbase : (m.modifiers.filterMap getTagForMemberModifier).Nodup :=
      hnodup.filterMap getTagForMemberModifier_inj
    have hopt : MemberTags.Optional ∉ m.modifiers.filterMap getTagForMemberModifier := by
      intro hmem
      rcases List.mem_filterMap.mp hmem with ⟨mod, _, hmod⟩
      rcases getTagForMemberModifier_mem mod _ hmod with h | h | h | h <;>
        exact absurd h (by decide)
    by_cases hq : m.questionToken = true
    · simp only [hq, if_pos]
      refine List.Nodup.append hbase (by simp) ?_
      simp only [List.disjoint_left]
      intro a ha hmem2
      simp only [List.mem_singleton] at hmem2
      subst hmem2
      exact hopt ha
    · simp only [Bool.not_eq_true] at hq
      simp [hq, hbase]

/-- Claim C7, witness: the concrete member with static, public and readonly
modifiers and an optional marker has duplicate-free tags. -/
theorem c7_witness : (getMemberTags mTagEx).Nodup :=
  (c7_member_tags mTagEx).2 (by decide)

/-- Claim C8: a non-excluded getter/setter pair sharing one name yields two
separate property entries, tagged Getter and Setter, in source order, with
surrounding members extracted around them unchanged; neither accessor is
dropped by the overload-resolution rule, which applies only to methods. -/
theorem c8_getter_setter_pair (env : Env) (k : ExtractorKind) (d : ClassDecl)
    (g s : MemberElement) (n : String)
    (hg : g.kind = MemberKind.getAccessor) (hs : s.kind = MemberKind.setAccessor)
    (hgn : g.name = some n) (hsn : s.name = some n)
    (hge : isMemberExcluded env g = false) (hse : isMemberExcluded env s = false)
    (pre mid post : List MemberElement) :
    ∃ eg es,
      extractClassMember env k d g = some eg ∧ eg.memberType = MemberType.Getter ∧
      extractClassMember env k d s = some es ∧ es.memberType = MemberType.Setter ∧
      extractMembersLoop env k d (pre ++ g :: mid ++ s :: post) =
        extractMembersLoop env k d pre ++
          eg :: (extractMembersLoop env k d mid ++
            es :: extractMembersLoop env k d post) := by
  have hgext : extractClassMember env k d g = some (extractGetterSetter env k g) := by
    simp [extractClassMember, isMethod, isProperty, isAccessor, hg]
  have hsext : extractClassMember env k d s = some (extractGetterSetter env k s) := by
    simp [extractClassMember, isMethod, isProperty, isAccessor, hs]
  refine ⟨extractGetterSetter env k g, extractGetterSetter env k s, hgext, ?_, hsext,
    ?_, ?_⟩
  · simp [extractGetterSetter, hg]
  · simp [extractGetterSetter, hs]
  · have h1 : extractMembersLoop env k d (g :: mid) =
        extractGetterSetter env k g :: extractMembersLoop env k d mid := by
      simp [extractMembersLoop, hge, hgext]
    have h2 : extractMembersLoop env k d (s :: post) =
        extractGetterSetter env k s :: extractMembersLoop env k d post := by
      simp [extractMembersLoop, hse, hsext]
    rw [extractMembersLoop_append, extractMembersLoop_append, h1, h2]
    simp [List.append_assoc]

/-- Claim C8, witness: the concrete getter/setter pair named "v" yields a
Getter entry and a Setter entry in order. -/
theorem c8_witness :
    ∃ eg es,
      extractClassMember env0 ExtractorKind.generic dAcc gM = some eg ∧
      eg.memberType = MemberType.Getter ∧
      extractClassMember env0 ExtractorKind.generic dAcc sM = some es ∧
      es.memberType = MemberType.Setter ∧
      extractMembersLoop env0 ExtractorKind.generic dAcc ([] ++ gM :: [] ++ sM :: []) =
        extractMembersLoop env0 ExtractorKind.generic dAcc [] ++
          eg :: (extractMembersLoop env0 ExtractorKind.generic dAcc [] ++
            es :: extractMembersLoop env0 ExtractorKind.generic dAcc []) :=
  c8_getter_setter_pair env0 ExtractorKind.generic dAcc gM sM "v" rfl rfl rfl rfl
    (by decide) (by decide) [] [] []

/-- Claim C9: the skip-hydration block check inspects only strict ancestors
(the walk starts at the parent): it returns true exactly when some strict
ancestor carries the skip-hydration attribute, and returns false when the
node itself carries the attribute but no strict ancestor does. -/
theorem c9_skip_hydration_strict_ancestors (t : TNode) :
    (isInSkipHydrationBlock t = true ↔
      ∃ a ∈ strictAncestors t, hasSkipHydrationAttrOnTNode a = true) ∧
    (hasSkipHydrationAttrOnTNode t = true →
      (∀ a ∈ strictAncestors t, hasSkipHydrationAttrOnTNode a = false) →
      isInSkipHydrationBlock t = false) := by
  have hiff : isInSkipHydrationBlock t = true ↔
      ∃ a ∈ strictAncestors t, hasSkipHydrationAttrOnTNode a = true := by
    cases t with
    | mk attrs p =>
      cases p with
      | none =>
        simp [isInSkipHydrationBlock, TNode.parent, ancestorScan, strictAncestors]
      | some q =>
        rw [isInSkipHydrationBlock]
        show ancestorScan (some q) = true ↔ _
        rw [ancestorScan_some_iff q, strictAncestors_mk]
        simp only [List.mem_cons]
  refine ⟨hiff, ?_⟩
  intro _ hall
  cases hres : isInSkipHydrationBlock t with
  | false => rfl
  | true =>
    rcases hiff.mp hres with ⟨a, ha, hattr⟩
    simp [hall a ha] at hattr

/-- Claim C9, witness: a parentless node carrying the skip-hydration
attribute itself is not inside a skip-hydration block. -/
theorem c9_witness : isInSkipHydrationBlock tSelf = false :=
  (c9_skip_hydration_strict_ancestors tSelf).2 (by decide) (by decide)

/-- Claim C10: a null merged attribute array yields false; otherwise the
check succeeds exactly when some even slot (an attribute name) holds a
string that lowercases to the skip-hydration name with no numeric marker in
an earlier even slot, so the scan compares only even slots, stops at the
first numeric marker, and never matches an occurrence after a marker. -/
theorem c10_attr_scan (p : Option TNode) (attrs : List AttrValue) :
    hasSkipHydrationAttrOnTNode (TNode.mk none p) = false ∧
    (hasSkipHydrationAttrOnTNode (TNode.mk (some attrs) p) = true ↔
      ∃ z s, attrs[2 * z]? = some (AttrValue.str s) ∧
        jsToLowerCase s = SKIP_HYDRATION_ATTR_NAME_LOWER_CASE ∧
        ∀ j, j < z → ∀ n, attrs[2 * j]? ≠ some (AttrValue.num n)) := by
  exact ⟨rfl, scanAttrs_iff attrs⟩
